import Mathlib

/-!
Shallow embedding of the event-scheduler core (`src/app.py`).

Python strings are modelled as `List Char` where character-level processing
matters (time parsing), and as `String` for opaque labels (names, roles,
day codes).  Python dicts used as mutable state (`assigned`, `schedule`)
are modelled as functions with explicit defaults, exactly matching
`dict.get(k, default)` / `dict.setdefault(k, [])`.  Python's `%` on ints
agrees with Lean's `Int.emod` for a positive divisor.  Python's
`list.sort(key=...)` is specified to be a stable sort by the key; a stable
sort's output is uniquely determined by that specification, so it is
modelled here by a stable insertion sort (`pySort`).
-/

namespace EventScheduler

/-! ### Python string primitives -/

/-- Python `str.strip()` whitespace test (default strip set). -/
def isSpaceChar (c : Char) : Bool := c.isWhitespace

/-- Python `str.strip()`: drop whitespace from both ends. -/
def pyStrip (l : List Char) : List Char :=
  ((l.dropWhile isSpaceChar).reverse.dropWhile isSpaceChar).reverse

/-- Python `s.split(":")`. -/
def splitOnColon : List Char → List (List Char)
  | [] => [[]]
  | c :: rest =>
    if c = ':' then [] :: splitOnColon rest
    else
      match splitOnColon rest with
      | [] => [[c]]
      | p :: ps => (c :: p) :: ps

/-- Python `str.isdigit()`: nonempty and all digit characters. -/
def isDigits (l : List Char) : Bool := !l.isEmpty && l.all Char.isDigit

/-- Value of a string of decimal digits. -/
def digitsToNat (l : List Char) : Nat :=
  l.foldl (fun a c => 10 * a + (c.toNat - '0'.toNat)) 0

/-- Python `int(s)`: strips whitespace, allows an optional sign, then
decimal digits.  (Underscore separators of Python int literals are not
modelled; no input in this development contains them.) -/
def pyIntStripped : List Char → Option Int
  | [] => none
  | c :: rest =>
    if c = '-' then if isDigits rest then some (-(digitsToNat rest : Int)) else none
    else if c = '+' then if isDigits rest then some ((digitsToNat rest : Int)) else none
    else if isDigits (c :: rest) then some ((digitsToNat (c :: rest) : Int)) else none

def pyInt (l : List Char) : Option Int := pyIntStripped (pyStrip l)

/-- Two-digit zero-padded decimal rendering, Python `f"{n:02d}"` for
`n < 100` (all callers pass `n ≤ 59`). -/
def pad2 (n : Nat) : List Char := [Nat.digitChar (n / 10), Nat.digitChar (n % 10)]

/-- Python `str.strip()` on a `String`. -/
def pyStripStr (s : String) : String := String.mk (pyStrip s.data)

/-! ### Time (app.py `time_to_minutes`, `minutes_to_time`, `overlaps`) -/

/-- Python tuple unpacking `h, m = parts`: an exception (modelled as `none`)
unless the list has exactly two elements. -/
def unpackTwo : List (List Char) → Option (List Char × List Char)
  | [h, m] => some (h, m)
  | _ => none

/-- `time_to_minutes` (app.py 104-106): `h, m = t.split(":")` (an exception,
modelled as `none`, unless exactly two parts), then `int(h) * 60 + int(m)`. -/
def time_to_minutes (t : List Char) : Option Int :=
  (unpackTwo (splitOnColon t)).bind (fun p =>
    (pyInt p.1).bind (fun hv => (pyInt p.2).map (fun mv => hv * 60 + mv)))

/-- `minutes_to_time` (app.py 108-112): reduce modulo 1440 (Python `%` on a
positive divisor is `Int.emod`, so the result is nonnegative and `toNat` is
lossless), then format zero-padded `HH:MM`. -/
def minutes_to_time (x : Int) : List Char :=
  let y := (x % 1440).toNat
  pad2 (y / 60) ++ ':' :: pad2 (y % 60)

/-- `overlaps` (app.py 114-115): half-open interval overlap test. -/
def overlaps (a_start a_end b_start b_end : Int) : Bool :=
  decide (a_start < b_end) && decide (b_start < a_end)

/-- The body of `is_time_ok` (app.py 508-515) after the initial strip:
validation used by the UI before an event is built.  Returns `none` for the
exception raised by the tuple unpacking of `t.split(":")` when the text
contains more than one colon. -/
def is_time_okStripped (s : List Char) : Option Bool :=
  if s.length = 5 ∧ s.get? 2 = some ':' then
    (unpackTwo (splitOnColon s)).map (fun p =>
      if isDigits p.1 && isDigits p.2 then
        decide (digitsToNat p.1 ≤ 23) && decide (digitsToNat p.2 ≤ 59)
      else false)
  else some false

/-- `is_time_ok` (app.py 506-515): strips the text (line 507), then
validates the stripped form. -/
def is_time_ok (t : List Char) : Option Bool := is_time_okStripped (pyStrip t)

/-- The spec's `parseClock`: the app accepts a clock text only when
`is_time_ok` holds, and then parses the stripped text with
`time_to_minutes` (app.py 646-655 stores `start_time.strip()` and
`build_event` parses it).  Any failure is `none`. -/
def parseClock (t : List Char) : Option Int :=
  if is_time_ok t = some true then time_to_minutes (pyStrip t) else none

/-! ### Staffing rules (app.py `calc_staff`, `difficulty_from_guests`) -/

/-- `calc_staff` (app.py 121-124).  `math.ceil(g / 20)` on a natural number
is `(g + 19) / 20` in natural division. -/
def calc_staff (guests : Nat) : Nat × Nat :=
  (max 3 ((guests + 19) / 20), max 1 ((guests + 59) / 60))

/-- `difficulty_from_guests` (app.py 126-133). -/
def difficulty_from_guests (guests : Nat) : Nat :=
  if guests ≤ 120 then 2
  else if guests ≤ 250 then 3
  else if guests ≤ 400 then 4
  else 5

/-! ### Data model -/

structure Employee where
  name : String
  phone : String
  role : String
  days : List String
  rank : Int
deriving DecidableEq

structure Event where
  day : String
  hall : String
  guests : Nat
  difficulty : Nat
  start_time : List Char
  end_time : List Char
  arrival_time : List Char
  arrival_min : Int
  start_min : Int
  end_min : Int
  waiters : Nat
  bartenders : Nat
  waiter_names : List String
  bartender_names : List String
  missing_waiters : Int
  missing_bartenders : Int
deriving DecidableEq

/-- `build_event` (app.py 160-192).  `none` models the `ValueError`
propagated from `time_to_minutes` on malformed text. -/
def build_event (day hall : String) (guests : Nat) (start_time end_time : List Char) :
    Option Event :=
  match time_to_minutes start_time, time_to_minutes end_time with
  | some start_min, some end_min0 =>
    let staff := calc_staff guests
    let end_min := if end_min0 ≤ start_min then end_min0 + 1440 else end_min0
    let arrival_min := start_min - 120
    some {
      day := day
      hall := hall
      guests := guests
      difficulty := difficulty_from_guests guests
      start_time := start_time
      end_time := end_time
      arrival_time := minutes_to_time arrival_min
      arrival_min := arrival_min
      start_min := start_min
      end_min := end_min
      waiters := staff.1
      bartenders := staff.2
      waiter_names := []
      bartender_names := []
      missing_waiters := 0
      missing_bartenders := 0 }
  | _, _ => none

/-! ### Stable sorting by key (Python `list.sort(key=...)`) -/

/-- Insert `x` after every element `y` of an already-sorted accumulator with
`le y x`; with a total preorder `le` this realizes a stable sort when
elements are inserted in input order. -/
def insertSorted {α : Type} (le : α → α → Bool) (x : α) : List α → List α
  | [] => [x]
  | y :: ys => if le y x then y :: insertSorted le x ys else x :: y :: ys

/-- Stable sort: insert the elements in input order. -/
def pySort {α : Type} (le : α → α → Bool) (l : List α) : List α :=
  l.foldl (fun acc x => insertSorted le x acc) []

/-- Python tuple comparison `≤` on pairs of ints (lexicographic). -/
def lexLe (p q : Int × Int) : Bool :=
  decide (p.1 < q.1) || (p.1 == q.1 && decide (p.2 ≤ q.2))

/-- Comparison of elements by a key into int pairs, the shape of every
`list.sort(key=...)` call in the source. -/
def keyLe {α : Type} (key : α → Int × Int) (a b : α) : Bool := lexLe (key a) (key b)

/-- The composite sort key of `assign_event` (app.py 212-216):
`(assigned.get(name, 0), rank)` for difficulty ≥ 4, else
`(assigned.get(name, 0), -rank)`. -/
def sortKey (difficulty : Nat) (assigned : String → Nat) (e : Employee) : Int × Int :=
  if 4 ≤ difficulty then ((assigned e.name : Int), e.rank)
  else ((assigned e.name : Int), -e.rank)

/-- Candidate comparison induced by the composite key. -/
def empLe (difficulty : Nat) (assigned : String → Nat) : Employee → Employee → Bool :=
  keyLe (sortKey difficulty assigned)

/-! ### Assignment (app.py `can_assign`, `assign_event`) -/

/-- The availability index: employee name → committed busy intervals
`(day, start, end)`; Python `schedule.get(name, [])` is the function value. -/
abbrev Sched := String → List (String × Int × Int)

/-- `can_assign` (app.py 198-202). -/
def can_assign (name : String) (event : Event) (schedule : Sched) : Bool :=
  (schedule name).all
    (fun i => !(i.1 == event.day && overlaps i.2.1 i.2.2 event.arrival_min event.end_min))

/-- app.py 208: employees available on the event's day. -/
def availableFor (day : String) (employees : List Employee) : List Employee :=
  employees.filter (fun e => e.days.contains day)

/-- app.py 209: the waiter candidate pool. -/
def waiterPool (day : String) (employees : List Employee) : List Employee :=
  (availableFor day employees).filter (fun e => e.role == "waiter")

/-- app.py 210: the bartender candidate pool. -/
def bartenderPool (day : String) (employees : List Employee) : List Employee :=
  (availableFor day employees).filter (fun e => e.role == "bartender")

/-- app.py 218: `waiters.sort(key=key)`. -/
def sortedWaiters (event : Event) (employees : List Employee) (assigned : String → Nat) :
    List Employee :=
  pySort (empLe event.difficulty assigned) (waiterPool event.day employees)

/-- app.py 219: `bartenders.sort(key=key)`. -/
def sortedBartenders (event : Event) (employees : List Employee) (assigned : String → Nat) :
    List Employee :=
  pySort (empLe event.difficulty assigned) (bartenderPool event.day employees)

/-- The selection loops of app.py 223-233: walk the candidates in order,
keeping those that pass `can_assign`, stopping when the quota is reached. -/
def pick_free (event : Event) (schedule : Sched) : Nat → List Employee → List Employee
  | 0, _ => []
  | _ + 1, [] => []
  | k + 1, e :: rest =>
    if can_assign e.name event schedule then e :: pick_free event schedule k rest
    else pick_free event schedule (k + 1) rest

/-- `chosen_w` of app.py 223-227. -/
def chosenWaiters (event : Event) (employees : List Employee) (assigned : String → Nat)
    (schedule : Sched) : List Employee :=
  pick_free event schedule event.waiters (sortedWaiters event employees assigned)

/-- `chosen_b` of app.py 229-233. -/
def chosenBartenders (event : Event) (employees : List Employee) (assigned : String → Nat)
    (schedule : Sched) : List Employee :=
  pick_free event schedule event.bartenders (sortedBartenders event employees assigned)

/-- One iteration of the commit loop of app.py 235-237: increment the load
counter and append the busy interval for one chosen employee. -/
def commitOne (day : String) (a b : Int) (st : (String → Nat) × Sched) (e : Employee) :
    (String → Nat) × Sched :=
  (fun n => if n = e.name then st.1 n + 1 else st.1 n,
   fun n => if n = e.name then st.2 n ++ [(day, a, b)] else st.2 n)

/-- `assign_event` (app.py 204-242), returning the updated event together
with the updated load counter and availability index.  Python's
`max(0, req - len(chosen))` is kept on `Int`. -/
def assign_event (event : Event) (employees : List Employee) (assigned : String → Nat)
    (schedule : Sched) : Event × (String → Nat) × Sched :=
  let chosen_w := chosenWaiters event employees assigned schedule
  let chosen_b := chosenBartenders event employees assigned schedule
  let st := (chosen_w ++ chosen_b).foldl
    (commitOne event.day event.arrival_min event.end_min) (assigned, schedule)
  ({ event with
      waiter_names := chosen_w.map Employee.name
      bartender_names := chosen_b.map Employee.name
      missing_waiters := max 0 ((event.waiters : Int) - chosen_w.length)
      missing_bartenders := max 0 ((event.bartenders : Int) - chosen_b.length) },
   st)

/-- The run loop of app.py 685-686: `for ev in week: assign_event(...)`,
threading the shared load counter and availability index. -/
def process_events : List Event → List Employee → (String → Nat) → Sched →
    List Event × (String → Nat) × Sched
  | [], _, assigned, schedule => ([], assigned, schedule)
  | ev :: rest, employees, assigned, schedule =>
    let r := assign_event ev employees assigned schedule
    let rr := process_events rest employees r.2.1 r.2.2
    (r.1 :: rr.1, rr.2)

/-- `save_employees_to_db` (app.py 70-98) as the list of records the
database retains: fields normalized (strips; Python's `int(rank or 1)`
turns a zero rank into 1), records with an empty stripped name or a role
outside the closed waiter/bartender set skipped. -/
def save_employees_to_db (employees : List Employee) : List Employee :=
  (employees.map (fun e =>
    { e with
        name := pyStripStr e.name
        phone := pyStripStr e.phone
        role := pyStripStr e.role
        days := (e.days.map pyStripStr).filter (fun d => !(d == ""))
        rank := if e.rank = 0 then 1 else e.rank })).filter
    (fun e => !(e.name == "") && (e.role == "waiter" || e.role == "bartender"))

/-! ### Concrete fixtures (fresh run state and demonstration data) -/

/-- The fresh load counter of a run (app.py 683: `assigned = {}`). -/
def zeroLoad : String → Nat := fun _ => 0

/-- The fresh availability index of a run (app.py 684: `schedule = {}`). -/
def emptySched : Sched := fun _ => []

def waiterS : Employee :=
  { name := "S", phone := "972500000001", role := "waiter", days := ["ה", "ו"], rank := 1 }

def waiterJ : Employee :=
  { name := "J", phone := "972500000002", role := "waiter", days := ["ה", "ו"], rank := 5 }

def bartB : Employee :=
  { name := "B", phone := "972500000003", role := "bartender", days := ["ה", "ו"], rank := 2 }

def chefX : Employee :=
  { name := "X", phone := "972500000004", role := "chef", days := ["ה"], rank := 1 }

def namelessW : Employee :=
  { name := "  ", phone := "972500000005", role := "waiter", days := ["ה"], rank := 1 }

def demoRoster : List Employee := [waiterS, waiterJ, bartB]

def demoEventA : Event :=
  { day := "ה", hall := "A", guests := 150, difficulty := 3,
    start_time := "19:00".data, end_time := "01:00".data, arrival_time := "17:00".data,
    arrival_min := 1020, start_min := 1140, end_min := 1500, waiters := 8, bartenders := 3,
    waiter_names := [], bartender_names := [], missing_waiters := 0, missing_bartenders := 0 }

def demoEventB : Event :=
  { demoEventA with
      hall := "B"
      start_time := "20:00".data
      arrival_time := "18:00".data
      arrival_min := 1080
      start_min := 1200 }

def demoWeek : List Event := [demoEventA, demoEventB]

/-! ### Spec-side predicates -/

/-- The format condition of the claim on `parseClock`, stated on the raw
text exactly as the claim words it: exactly 5 characters, a colon at index
2, both two-character parts numeric, hour in [0,23], minute in [0,59]. -/
def goodClockFormat (l : List Char) : Prop :=
  l.length = 5 ∧ l.get? 2 = some ':' ∧
  isDigits (l.take 2) = true ∧ isDigits (l.drop 3) = true ∧
  digitsToNat (l.take 2) ≤ 23 ∧ digitsToNat (l.drop 3) ≤ 59

instance (l : List Char) : Decidable (goodClockFormat l) := by
  unfold goodClockFormat; infer_instance

/-- Two busy intervals are compatible when they are on different days or do
not overlap (half-open test). -/
def sameDayDisjoint (a b : String × Int × Int) : Prop :=
  a.1 = b.1 → ¬ (overlaps a.2.1 a.2.2 b.2.1 b.2.2 = true)

instance (a b : String × Int × Int) : Decidable (sameDayDisjoint a b) := by
  unfold sameDayDisjoint; infer_instance

/-! ### Sorting lemmas: `pySort` is a permutation, sorts by the key, and is stable -/

section SortLemmas

variable {α : Type} (le : α → α → Bool)

lemma insertSorted_perm (x : α) (l : List α) : (insertSorted le x l).Perm (x :: l) := by
  induction l with
  | nil => exact List.Perm.refl _
  | cons y ys ih =>
    unfold insertSorted
    split
    · exact ((ih).cons y).trans (List.Perm.swap x y ys)
    · exact List.Perm.refl _

lemma foldl_insertSorted_perm (l : List α) :
    ∀ acc : List α, (l.foldl (fun acc x => insertSorted le x acc) acc).Perm (acc ++ l) := by
  induction l with
  | nil => intro acc; simp
  | cons x xs ih =>
    intro acc
    have h1 : (x :: xs).foldl (fun acc x => insertSorted le x acc) acc
        = xs.foldl (fun acc x => insertSorted le x acc) (insertSorted le x acc) := by
      simp [List.foldl_cons]
    rw [h1]
    refine (ih _).trans ?_
    refine (((insertSorted_perm le x acc).append_right xs).trans ?_)
    simpa using List.perm_middle.symm

lemma pySort_perm (l : List α) : (pySort le l).Perm l := by
  simpa using foldl_insertSorted_perm le l []

lemma insertSorted_pairwise
    (htot : ∀ a b, le a b = true ∨ le b a = true)
    (htrans : ∀ a b c, le a b = true → le b c = true → le a c = true)
    (x : α) (l : List α)
    (hl : l.Pairwise (fun a b => le a b = true)) :
    (insertSorted le x l).Pairwise (fun a b => le a b = true) := by
  induction l with
  | nil => simp [insertSorted]
  | cons y ys ih =>
    rw [List.pairwise_cons] at hl
    obtain ⟨hy, hys⟩ := hl
    unfold insertSorted
    split
    · rename_i hle
      rw [List.pairwise_cons]
      refine ⟨?_, ih hys⟩
      intro z hz
      rcases List.mem_cons.1 (((insertSorted_perm le x ys).mem_iff).1 hz) with rfl | hz'
      · exact hle
      · exact hy z hz'
    · rename_i hle
      rw [List.pairwise_cons]
      refine ⟨?_, List.pairwise_cons.2 ⟨hy, hys⟩⟩
      intro z hz
      have hxy : le x y = true := (htot x y).resolve_right (by simpa using hle)
      rcases List.mem_cons.1 hz with rfl | hz'
      · exact hxy
      · exact htrans x y z hxy (hy z hz')

lemma pySort_pairwise
    (htot : ∀ a b, le a b = true ∨ le b a = true)
    (htrans : ∀ a b c, le a b = true → le b c = true → le a c = true)
    (l : List α) :
    (pySort le l).Pairwise (fun a b => le a b = true) := by
  suffices h : ∀ acc : List α, acc.Pairwise (fun a b => le a b = true) →
      (l.foldl (fun acc x => insertSorted le x acc) acc).Pairwise (fun a b => le a b = true) by
    exact h [] (List.Pairwise.nil)
  induction l with
  | nil => intro acc hacc; simpa using hacc
  | cons x xs ih =>
    intro acc hacc
    simp only [List.foldl_cons]
    exact ih _ (insertSorted_pairwise le htot htrans x acc hacc)

end SortLemmas

section LexLemmas

lemma lexLe_refl (p : Int × Int) : lexLe p p = true := by simp [lexLe]

lemma lexLe_total (p q : Int × Int) : lexLe p q = true ∨ lexLe q p = true := by
  obtain ⟨a, b⟩ := p; obtain ⟨c, d⟩ := q
  simp only [lexLe, Bool.or_eq_true, Bool.and_eq_true, decide_eq_true_eq, beq_iff_eq]
  omega

lemma lexLe_trans (p q r : Int × Int) (h1 : lexLe p q = true) (h2 : lexLe q r = true) :
    lexLe p r = true := by
  obtain ⟨a, b⟩ := p; obtain ⟨c, d⟩ := q; obtain ⟨e, f⟩ := r
  simp only [lexLe, Bool.or_eq_true, Bool.and_eq_true, decide_eq_true_eq, beq_iff_eq] at *
  omega

lemma keyLe_total {α : Type} (key : α → Int × Int) (a b : α) :
    keyLe key a b = true ∨ keyLe key b a = true := lexLe_total _ _

lemma keyLe_trans {α : Type} (key : α → Int × Int) (a b c : α)
    (h1 : keyLe key a b = true) (h2 : keyLe key b c = true) : keyLe key a c = true :=
  lexLe_trans _ _ _ h1 h2

lemma keyLe_false_key_ne {α : Type} (key : α → Int × Int) {a b : α}
    (h : keyLe key a b = false) : key a ≠ key b := by
  intro he
  have : keyLe key a b = true := by unfold keyLe; rw [he]; exact lexLe_refl _
  simp [this] at h

lemma keyLe_false_forward {α : Type} (key : α → Int × Int) {a b z : α}
    (h : keyLe key a b = false) (hz : keyLe key a z = true) : key z ≠ key b := by
  intro he
  have : keyLe key a b = true := by
    unfold keyLe at hz ⊢; rw [← he]; exact hz
  simp [this] at h

end LexLemmas

section StabilityLemmas

variable {α : Type} (key : α → Int × Int)

lemma insertSorted_filter_key (x : α) (c : Int × Int) (l : List α)
    (hl : l.Pairwise (fun a b => keyLe key a b = true)) :
    (insertSorted (keyLe key) x l).filter (fun e => key e == c) =
      if key x == c then l.filter (fun e => key e == c) ++ [x]
      else l.filter (fun e => key e == c) := by
  induction l with
  | nil =>
    simp only [insertSorted, List.filter_cons, List.filter_nil]
    split <;> simp
  | cons y ys ih =>
    rw [List.pairwise_cons] at hl
    obtain ⟨hy, hys⟩ := hl
    unfold insertSorted
    split
    · rename_i hle
      rw [List.filter_cons, List.filter_cons]
      by_cases hyc : (key y == c) = true
      · simp only [hyc, if_true, ih hys]
        split <;> simp
      · simp only [hyc]
        simp only [Bool.false_eq_true, if_false, ih hys]
    · rename_i hle
      have hle' : keyLe key y x = false := by simpa using hle
      by_cases hxc : (key x == c) = true
      · have hyc : (key y == c) = false := by
          have hne := keyLe_false_key_ne key hle'
          simp only [beq_iff_eq] at hxc
          rw [beq_eq_false_iff_ne, ← hxc]
          exact hne
        have hzs : ∀ z ∈ ys, (key z == c) = false := by
          intro z hz
          have hyz : keyLe key y z = true := hy z hz
          have hne := keyLe_false_forward key hle' hyz
          simp only [beq_iff_eq] at hxc
          rw [beq_eq_false_iff_ne, ← hxc]
          exact hne
        have hfil : ys.filter (fun e => key e == c) = [] := by
          apply List.filter_eq_nil_iff.2
          intro z hz; simp [hzs z hz]
        rw [List.filter_cons, List.filter_cons]
        simp [hxc, hyc, hfil]
      · rw [List.filter_cons, List.filter_cons]
        simp [hxc]

lemma pySort_filter_key (c : Int × Int) (l : List α) :
    (pySort (keyLe key) l).filter (fun e => key e == c) = l.filter (fun e => key e == c) := by
  suffices h : ∀ acc : List α, acc.Pairwise (fun a b => keyLe key a b = true) →
      (l.foldl (fun acc x => insertSorted (keyLe key) x acc) acc).filter (fun e => key e == c) =
        acc.filter (fun e => key e == c) ++ l.filter (fun e => key e == c) by
    simpa using h [] List.Pairwise.nil
  induction l with
  | nil => intro acc hacc; simp
  | cons x xs ih =>
    intro acc hacc
    simp only [List.foldl_cons]
    rw [ih _ (insertSorted_pairwise _ (keyLe_total key) (keyLe_trans key) x acc hacc)]
    rw [insertSorted_filter_key key x c acc hacc]
    rw [List.filter_cons]
    split
    · rename_i hxc
      simp [hxc, List.append_assoc]
    · rename_i hxc
      simp at hxc
      simp [hxc]

end StabilityLemmas

/-! ### Assignment-engine lemmas -/

section AssignLemmas

lemma pick_free_eq (ev : Event) (s : Sched) (k : Nat) (l : List Employee) :
    pick_free ev s k l = (l.filter (fun e => can_assign e.name ev s)).take k := by
  induction l generalizing k with
  | nil => cases k <;> rfl
  | cons e rest ih =>
    cases k with
    | zero => rfl
    | succ k =>
      cases h : can_assign e.name ev s with
      | true => simp [pick_free, h, List.filter_cons, ih]
      | false => simp [pick_free, h, List.filter_cons, ih]

lemma pick_free_length_le (ev : Event) (s : Sched) (k : Nat) (l : List Employee) :
    (pick_free ev s k l).length ≤ k := by
  rw [pick_free_eq]
  exact (List.length_take _ _).le.trans (min_le_left _ _)

lemma pick_free_sublist (ev : Event) (s : Sched) (k : Nat) (l : List Employee) :
    (pick_free ev s k l).Sublist l := by
  rw [pick_free_eq]
  exact (List.take_sublist _ _).trans (List.filter_sublist _)

lemma pick_free_can_assign (ev : Event) (s : Sched) (k : Nat) (l : List Employee)
    {e : Employee} (he : e ∈ pick_free ev s k l) : can_assign e.name ev s = true := by
  rw [pick_free_eq] at he
  have h2 : e ∈ l.filter (fun e => can_assign e.name ev s) := (List.take_sublist _ _).subset he
  simpa using List.of_mem_filter h2

lemma mem_waiterPool {d : String} {emps : List Employee} {e : Employee}
    (h : e ∈ waiterPool d emps) : e ∈ emps ∧ e.role = "waiter" := by
  unfold waiterPool availableFor at h
  have h1 := List.mem_filter.1 h
  have h2 := List.mem_filter.1 h1.1
  exact ⟨h2.1, by simpa using h1.2⟩

lemma mem_bartenderPool {d : String} {emps : List Employee} {e : Employee}
    (h : e ∈ bartenderPool d emps) : e ∈ emps ∧ e.role = "bartender" := by
  unfold bartenderPool availableFor at h
  have h1 := List.mem_filter.1 h
  have h2 := List.mem_filter.1 h1.1
  exact ⟨h2.1, by simpa using h1.2⟩

lemma waiterPool_names_nodup {d : String} {emps : List Employee}
    (h : (emps.map Employee.name).Nodup) : ((waiterPool d emps).map Employee.name).Nodup := by
  unfold waiterPool availableFor
  exact ((List.filter_sublist _).trans (List.filter_sublist _)).map Employee.name |>.nodup h

lemma bartenderPool_names_nodup {d : String} {emps : List Employee}
    (h : (emps.map Employee.name).Nodup) : ((bartenderPool d emps).map Employee.name).Nodup := by
  unfold bartenderPool availableFor
  exact ((List.filter_sublist _).trans (List.filter_sublist _)).map Employee.name |>.nodup h

lemma mem_chosenWaiters {ev : Event} {emps : List Employee} {a : String → Nat} {s : Sched}
    {e : Employee} (h : e ∈ chosenWaiters ev emps a s) :
    e ∈ waiterPool ev.day emps ∧ can_assign e.name ev s = true := by
  refine ⟨?_, pick_free_can_assign _ _ _ _ h⟩
  have h2 := (pick_free_sublist ev s ev.waiters (sortedWaiters ev emps a)).subset h
  exact (pySort_perm _ _).mem_iff.1 h2

lemma mem_chosenBartenders {ev : Event} {emps : List Employee} {a : String → Nat} {s : Sched}
    {e : Employee} (h : e ∈ chosenBartenders ev emps a s) :
    e ∈ bartenderPool ev.day emps ∧ can_assign e.name ev s = true := by
  refine ⟨?_, pick_free_can_assign _ _ _ _ h⟩
  have h2 := (pick_free_sublist ev s ev.bartenders (sortedBartenders ev emps a)).subset h
  exact (pySort_perm _ _).mem_iff.1 h2

lemma chosenWaiters_names_nodup {ev : Event} {emps : List Employee} {a : String → Nat}
    {s : Sched} (h : (emps.map Employee.name).Nodup) :
    ((chosenWaiters ev emps a s).map Employee.name).Nodup := by
  have h1 : ((sortedWaiters ev emps a).map Employee.name).Nodup :=
    ((pySort_perm _ _).map Employee.name).nodup_iff.2 (waiterPool_names_nodup h)
  exact ((pick_free_sublist _ _ _ _).map Employee.name).nodup h1

lemma chosenBartenders_names_nodup {ev : Event} {emps : List Employee} {a : String → Nat}
    {s : Sched} (h : (emps.map Employee.name).Nodup) :
    ((chosenBartenders ev emps a s).map Employee.name).Nodup := by
  have h1 : ((sortedBartenders ev emps a).map Employee.name).Nodup :=
    ((pySort_perm _ _).map Employee.name).nodup_iff.2 (bartenderPool_names_nodup h)
  exact ((pick_free_sublist _ _ _ _).map Employee.name).nodup h1

lemma chosen_names_nodup {ev : Event} {emps : List Employee} {a : String → Nat} {s : Sched}
    (h : (emps.map Employee.name).Nodup) :
    (((chosenWaiters ev emps a s ++ chosenBartenders ev emps a s).map Employee.name)).Nodup := by
  rw [List.map_append, List.nodup_append]
  refine ⟨chosenWaiters_names_nodup h, chosenBartenders_names_nodup h, ?_⟩
  intro n hn hn'
  obtain ⟨e1, he1, rfl⟩ := List.mem_map.1 hn
  obtain ⟨e2, he2, hne⟩ := List.mem_map.1 hn'
  have h1 := mem_waiterPool (mem_chosenWaiters he1).1
  have h2 := mem_bartenderPool (mem_chosenBartenders he2).1
  have h3 : e1 = e2 := List.inj_on_of_nodup_map h h1.1 h2.1 hne.symm
  rw [h3, h2.2] at h1
  exact absurd h1.2 (by decide)

lemma foldl_commitOne_sched (d : String) (ar en : Int) (l : List Employee)
    (hl : (l.map Employee.name).Nodup) (a : String → Nat) (s : Sched) (n : String) :
    (l.foldl (commitOne d ar en) (a, s)).2 n =
      if n ∈ l.map Employee.name then s n ++ [(d, ar, en)] else s n := by
  induction l generalizing a s with
  | nil => simp
  | cons e rest ih =>
    simp only [List.map_cons, List.nodup_cons] at hl
    obtain ⟨hni, hrest⟩ := hl
    simp only [List.foldl_cons]
    rw [ih hrest]
    simp only [List.map_cons, List.mem_cons]
    by_cases hn : n = e.name
    · subst hn
      rw [if_neg hni, if_pos (Or.inl rfl)]
      simp [commitOne]
    · have h1 : (commitOne d ar en (a, s) e).2 n = s n := by simp [commitOne, hn]
      rw [h1]
      by_cases h2 : n ∈ rest.map Employee.name
      · rw [if_pos h2, if_pos (Or.inr h2)]
      · rw [if_neg h2, if_neg (fun hc => hc.elim hn h2)]

lemma can_assign_entry {n : String} {ev : Event} {s : Sched}
    (h : can_assign n ev s = true) {p : String × Int × Int} (hp : p ∈ s n) :
    sameDayDisjoint p (ev.day, ev.arrival_min, ev.end_min) := by
  unfold can_assign at h
  have h2 := List.all_eq_true.1 h p hp
  intro hd
  simp only [Bool.not_eq_eq_eq_not, Bool.not_true, Bool.and_eq_false_iff] at h2
  rcases h2 with h1 | h1
  · exact absurd hd (by simpa using h1)
  · simp [h1]

lemma assign_event_preserves {ev : Event} {emps : List Employee} {a : String → Nat} {s : Sched}
    (hnodup : (emps.map Employee.name).Nodup)
    (hs : ∀ n, ((s n)).Pairwise sameDayDisjoint) :
    ∀ n, (((assign_event ev emps a s).2.2) n).Pairwise sameDayDisjoint := by
  intro n
  show ((((chosenWaiters ev emps a s ++ chosenBartenders ev emps a s)).foldl
      (commitOne ev.day ev.arrival_min ev.end_min) (a, s)).2 n).Pairwise sameDayDisjoint
  rw [foldl_commitOne_sched _ _ _ _ (chosen_names_nodup hnodup) a s n]
  split
  · rename_i hmem
    rw [List.pairwise_append]
    refine ⟨hs n, List.pairwise_singleton _ _, ?_⟩
    intro p hp q hq
    obtain ⟨e, he, rfl⟩ := List.mem_map.1 hmem
    have hcan : can_assign e.name ev s = true := by
      rcases List.mem_append.1 he with h | h
      · exact (mem_chosenWaiters h).2
      · exact (mem_chosenBartenders h).2
    rcases List.mem_singleton.1 hq with rfl
    exact can_assign_entry hcan hp
  · exact hs n

lemma process_events_preserves (events : List Event) (emps : List Employee)
    (hnodup : (emps.map Employee.name).Nodup) :
    ∀ (a : String → Nat) (s : Sched), (∀ n, (s n).Pairwise sameDayDisjoint) →
      ∀ n, ((process_events events emps a s).2.2 n).Pairwise sameDayDisjoint := by
  induction events with
  | nil => intro a s hs n; exact hs n
  | cons ev rest ih =>
    intro a s hs n
    exact ih _ _ (assign_event_preserves hnodup hs) n

end AssignLemmas

/-! ### Character and parsing lemmas -/

section CharLemmas

lemma isDigit_not_space (c : Char) (h : c.isDigit = true) : isSpaceChar c = false := by
  unfold isSpaceChar
  simp only [Char.isWhitespace]
  simp only [Bool.or_eq_false_iff, decide_eq_false_iff_not]
  refine ⟨⟨⟨?_, ?_⟩, ?_⟩, ?_⟩ <;> rintro rfl <;> simp [Char.isDigit] at h

lemma isDigit_ne_colon (c : Char) (h : c.isDigit = true) : c ≠ ':' := by
  rintro rfl; simp [Char.isDigit] at h

lemma isDigit_ne_minus (c : Char) (h : c.isDigit = true) : c ≠ '-' := by
  rintro rfl; simp [Char.isDigit] at h

lemma isDigit_ne_plus (c : Char) (h : c.isDigit = true) : c ≠ '+' := by
  rintro rfl; simp [Char.isDigit] at h

lemma dropWhile_eq_self_of_all {l : List Char} (h : ∀ c ∈ l, isSpaceChar c = false) :
    l.dropWhile isSpaceChar = l := by
  cases l with
  | nil => rfl
  | cons a l => simp [List.dropWhile_cons, h a (List.mem_cons_self a l)]

lemma pyStrip_eq_self {l : List Char} (h : ∀ c ∈ l, isSpaceChar c = false) : pyStrip l = l := by
  unfold pyStrip
  rw [dropWhile_eq_self_of_all h, dropWhile_eq_self_of_all, List.reverse_reverse]
  intro c hc
  exact h c (by simpa using hc)

lemma splitOnColon_ne_nil (l : List Char) : splitOnColon l ≠ [] := by
  cases l with
  | nil => simp [splitOnColon]
  | cons c rest =>
    unfold splitOnColon
    split
    · simp
    · cases h : splitOnColon rest <;> simp

lemma splitOnColon_count (l : List Char) : (splitOnColon l).length = l.count ':' + 1 := by
  induction l with
  | nil => simp [splitOnColon]
  | cons c rest ih =>
    unfold splitOnColon
    by_cases hc : c = ':'
    · subst hc
      rw [if_pos rfl]
      simp [List.count_cons, ih]
    · rw [if_neg hc]
      cases h : splitOnColon rest with
      | nil => exact absurd h (splitOnColon_ne_nil rest)
      | cons p ps =>
        rw [h] at ih
        simp only [List.length_cons] at ih
        simp [List.count_cons, hc, ih]

lemma splitOnColon_five (a b d e : Char) (ha : a ≠ ':') (hb : b ≠ ':') (hd : d ≠ ':')
    (he : e ≠ ':') : splitOnColon [a, b, ':', d, e] = [[a, b], [d, e]] := by
  simp [splitOnColon, ha, hb, hd, he]

lemma isDigits_mem {l : List Char} {c : Char} (h : isDigits l = true) (hc : c ∈ l) :
    c.isDigit = true := by
  unfold isDigits at h
  exact (List.all_eq_true.1 (Bool.and_elim_right h)) c hc

lemma all_digits_not_space {l : List Char} (h : isDigits l = true) :
    ∀ c ∈ l, isSpaceChar c = false := by
  intro c hc
  exact isDigit_not_space c (isDigits_mem h hc)

lemma pyInt_digits (l : List Char) (h : isDigits l = true) :
    pyInt l = some ((digitsToNat l : Int)) := by
  unfold pyInt
  rw [pyStrip_eq_self (all_digits_not_space h)]
  cases l with
  | nil => simp [isDigits] at h
  | cons c rest =>
    have hc : c.isDigit = true := isDigits_mem h (List.mem_cons_self c rest)
    simp only [pyIntStripped]
    rw [if_neg (isDigit_ne_minus c hc), if_neg (isDigit_ne_plus c hc), if_pos h]

lemma exists_five {l : List Char} (h : l.length = 5) :
    ∃ a b c d e, l = [a, b, c, d, e] := by
  cases l with
  | nil => simp at h
  | cons a l =>
    cases l with
    | nil => simp at h
    | cons b l =>
      cases l with
      | nil => simp at h
      | cons c l =>
        cases l with
        | nil => simp at h
        | cons d l =>
          cases l with
          | nil => simp at h
          | cons e l =>
            cases l with
            | nil => exact ⟨a, b, c, d, e, rfl⟩
            | cons f l => simp at h

lemma unpackTwo_pair (h m : List Char) : unpackTwo [h, m] = some (h, m) := rfl

lemma unpackTwo_long (p q r : List Char) (rs : List (List Char)) :
    unpackTwo (p :: q :: r :: rs) = none := rfl

lemma time_to_minutes_parts (a b d e : Char) (h1 : isDigits [a, b] = true)
    (h2 : isDigits [d, e] = true) :
    time_to_minutes [a, b, ':', d, e] =
      some ((digitsToNat [a, b] : Int) * 60 + (digitsToNat [d, e] : Int)) := by
  have ha := isDigit_ne_colon a (isDigits_mem h1 (by simp))
  have hb := isDigit_ne_colon b (isDigits_mem h1 (by simp))
  have hd := isDigit_ne_colon d (isDigits_mem h2 (by simp))
  have he := isDigit_ne_colon e (isDigits_mem h2 (by simp))
  simp only [time_to_minutes, splitOnColon_five a b d e ha hb hd he, unpackTwo_pair,
    Option.bind_some]
  simp [pyInt_digits _ h1, pyInt_digits _ h2]

lemma is_time_okStripped_five (a b d e : Char) :
    is_time_okStripped [a, b, ':', d, e] =
      (unpackTwo (splitOnColon [a, b, ':', d, e])).map (fun p =>
        if isDigits p.1 && isDigits p.2 then
          decide (digitsToNat p.1 ≤ 23) && decide (digitsToNat p.2 ≤ 59)
        else false) := by
  unfold is_time_okStripped
  rw [if_pos ⟨rfl, rfl⟩]

lemma is_time_okStripped_bad (s : List Char) (h : ¬(s.length = 5 ∧ s.get? 2 = some ':')) :
    is_time_okStripped s = some false := by
  unfold is_time_okStripped
  rw [if_neg h]

lemma parseClockStripped_iff (s : List Char) :
    (if is_time_okStripped s = some true then time_to_minutes s else none).isSome = true ↔
      goodClockFormat s := by
  by_cases hlen : s.length = 5 ∧ s.get? 2 = some ':'
  case neg =>
    rw [is_time_okStripped_bad s hlen,
      if_neg (by simp : ¬(some false : Option Bool) = some true)]
    simp only [Option.isSome_none, Bool.false_eq_true, false_iff]
    intro hg; exact hlen ⟨hg.1, hg.2.1⟩
  case pos =>
    obtain ⟨hlen5, hcol⟩ := hlen
    obtain ⟨a, b, c, d, e, rfl⟩ := exists_five hlen5
    have hc : c = ':' := by simpa using hcol
    subst hc
    rw [is_time_okStripped_five]
    by_cases hcols : a ≠ ':' ∧ b ≠ ':' ∧ d ≠ ':' ∧ e ≠ ':'
    · obtain ⟨ha, hb, hd, he⟩ := hcols
      rw [splitOnColon_five a b d e ha hb hd he, unpackTwo_pair, Option.map_some']
      by_cases hdig : (isDigits [a, b] && isDigits [d, e]) = true
      · rw [if_pos hdig]
        obtain ⟨h1, h2⟩ := Bool.and_eq_true_iff.1 hdig
        by_cases hr : digitsToNat [a, b] ≤ 23 ∧ digitsToNat [d, e] ≤ 59
        · have hbq : (decide (digitsToNat [a, b] ≤ 23) &&
              decide (digitsToNat [d, e] ≤ 59)) = true := by simp [hr.1, hr.2]
          rw [if_pos (by rw [hbq])]
          rw [time_to_minutes_parts a b d e h1 h2]
          simp [goodClockFormat, h1, h2, hr.1, hr.2]
        · have hbq : (decide (digitsToNat [a, b] ≤ 23) &&
              decide (digitsToNat [d, e] ≤ 59)) = false := by
            rcases Decidable.not_and_iff_or_not.1 hr with h | h <;> simp [h]
          rw [if_neg (by rw [hbq]; simp)]
          simp only [Option.isSome_none, Bool.false_eq_true, false_iff]
          intro hg
          exact absurd ⟨hg.2.2.2.2.1, hg.2.2.2.2.2⟩ hr
      · rw [if_neg hdig, if_neg (by simp : ¬(some false : Option Bool) = some true)]
        simp only [Option.isSome_none, Bool.false_eq_true, false_iff]
        intro hg
        have h1 : isDigits [a, b] = true := hg.2.2.1
        have h2 : isDigits [d, e] = true := hg.2.2.2.1
        exact hdig (by simp [h1, h2])
    · have halt : a = ':' ∨ b = ':' ∨ d = ':' ∨ e = ':' := by tauto
      have hcnt : 2 ≤ List.count ':' [a, b, ':', d, e] := by
        rcases halt with rfl | rfl | rfl | rfl <;>
          simp [List.count_cons] <;> split_ifs <;> omega
      have hlen3 : 3 ≤ (splitOnColon [a, b, ':', d, e]).length := by
        rw [splitOnColon_count]
        simpa using hcnt
      rcases hsp : splitOnColon [a, b, ':', d, e] with _ | ⟨p, _ | ⟨q, _ | ⟨r, rs⟩⟩⟩
      · exact absurd hsp (splitOnColon_ne_nil _)
      · rw [hsp] at hlen3; simp at hlen3
      · rw [hsp] at hlen3; simp at hlen3
      · rw [unpackTwo_long, Option.map_none',
          if_neg (by simp : ¬(none : Option Bool) = some true)]
        simp only [Option.isSome_none, Bool.false_eq_true, false_iff]
        intro hg
        rcases halt with rfl | rfl | rfl | rfl
        · have hdg : (':' : Char).isDigit = true := isDigits_mem hg.2.2.1 (by simp)
          exact absurd hdg (by decide)
        · have hdg : (':' : Char).isDigit = true := isDigits_mem hg.2.2.1 (by simp)
          exact absurd hdg (by decide)
        · have hdg : (':' : Char).isDigit = true := isDigits_mem hg.2.2.2.1 (by simp)
          exact absurd hdg (by decide)
        · have hdg : (':' : Char).isDigit = true := isDigits_mem hg.2.2.2.1 (by simp)
          exact absurd hdg (by decide)

end CharLemmas

/-! ### Round-trip lemmas -/

section RoundTrip

lemma digitChar_spec (d : Nat) (hd : d < 10) :
    (Nat.digitChar d).isDigit = true ∧ (Nat.digitChar d).toNat - '0'.toNat = d := by
  interval_cases d <;> exact ⟨by decide, by decide⟩

lemma pad2_spec (n : Nat) (hn : n < 100) :
    isDigits (pad2 n) = true ∧ digitsToNat (pad2 n) = n := by
  have h1 : n / 10 < 10 := by omega
  have h2 : n % 10 < 10 := by omega
  constructor
  · simp [pad2, isDigits, (digitChar_spec _ h1).1, (digitChar_spec _ h2).1]
  · have e1 := (digitChar_spec _ h1).2
    have e2 := (digitChar_spec _ h2).2
    simp only [pad2, digitsToNat, List.foldl_cons, List.foldl_nil]
    omega

lemma pyStrip_fmt (h m : Nat) (hh : h < 100) (hm : m < 100) :
    pyStrip (pad2 h ++ ':' :: pad2 m) = pad2 h ++ ':' :: pad2 m := by
  apply pyStrip_eq_self
  intro c hc
  rcases List.mem_append.1 hc with hc' | hc'
  · exact isDigit_not_space c (isDigits_mem (pad2_spec h hh).1 hc')
  · rcases List.mem_cons.1 hc' with rfl | hc''
    · decide
    · exact isDigit_not_space c (isDigits_mem (pad2_spec m hm).1 hc'')

lemma parseClockStripped_parts (a b d e : Char)
    (h1 : isDigits [a, b] = true) (h2 : isDigits [d, e] = true)
    (hr1 : digitsToNat [a, b] ≤ 23) (hr2 : digitsToNat [d, e] ≤ 59)
    (hs : pyStrip [a, b, ':', d, e] = [a, b, ':', d, e]) :
    parseClock [a, b, ':', d, e] =
      some ((digitsToNat [a, b] : Int) * 60 + (digitsToNat [d, e] : Int)) := by
  have ha := isDigit_ne_colon a (isDigits_mem h1 (by simp))
  have hb := isDigit_ne_colon b (isDigits_mem h1 (by simp))
  have hd := isDigit_ne_colon d (isDigits_mem h2 (by simp))
  have he := isDigit_ne_colon e (isDigits_mem h2 (by simp))
  unfold parseClock is_time_ok
  rw [hs, is_time_okStripped_five, splitOnColon_five a b d e ha hb hd he, unpackTwo_pair,
    Option.map_some']
  rw [if_pos (by simp [h1, h2, hr1, hr2] : (some (if (isDigits [a, b] && isDigits [d, e]) = true
    then decide (digitsToNat [a, b] ≤ 23) && decide (digitsToNat [d, e] ≤ 59)
    else false) : Option Bool) = some true)]
  exact time_to_minutes_parts a b d e h1 h2

lemma parseClock_fmt (h m : Nat) (hh : h ≤ 23) (hm : m ≤ 59) :
    parseClock (pad2 h ++ ':' :: pad2 m) = some ((h : Int) * 60 + (m : Int)) := by
  obtain ⟨hdig1, hval1⟩ := pad2_spec h (by omega)
  obtain ⟨hdig2, hval2⟩ := pad2_spec m (by omega)
  have hv1 : digitsToNat [Nat.digitChar (h / 10), Nat.digitChar (h % 10)] = h := hval1
  have hv2 : digitsToNat [Nat.digitChar (m / 10), Nat.digitChar (m % 10)] = m := hval2
  have key := parseClockStripped_parts (Nat.digitChar (h / 10)) (Nat.digitChar (h % 10))
      (Nat.digitChar (m / 10)) (Nat.digitChar (m % 10)) hdig1 hdig2
      (by rw [hv1]; exact hh) (by rw [hv2]; exact hm)
      (pyStrip_fmt h m (by omega) (by omega))
  rw [show (pad2 h ++ ':' :: pad2 m) =
      [Nat.digitChar (h / 10), Nat.digitChar (h % 10), ':',
       Nat.digitChar (m / 10), Nat.digitChar (m % 10)] from rfl]
  rw [key, hv1, hv2]

end RoundTrip

/-! ### Ceiling-division lemmas -/

section CeilLemmas

lemma ceil_div_twenty (g : Nat) : ⌈(g : ℚ) / 20⌉ = (((g + 19) / 20 : ℕ) : ℤ) := by
  rw [Int.ceil_eq_iff]
  constructor
  · rw [lt_div_iff₀ (by norm_num : (0 : ℚ) < 20)]
    have hz : ((((g + 19) / 20 : ℕ) : ℤ) - 1) * 20 < (g : ℤ) := by push_cast; omega
    exact_mod_cast hz
  · rw [div_le_iff₀ (by norm_num : (0 : ℚ) < 20)]
    have hz : (g : ℤ) ≤ (((g + 19) / 20 : ℕ) : ℤ) * 20 := by push_cast; omega
    exact_mod_cast hz

lemma ceil_div_sixty (g : Nat) : ⌈(g : ℚ) / 60⌉ = (((g + 59) / 60 : ℕ) : ℤ) := by
  rw [Int.ceil_eq_iff]
  constructor
  · rw [lt_div_iff₀ (by norm_num : (0 : ℚ) < 60)]
    have hz : ((((g + 59) / 60 : ℕ) : ℤ) - 1) * 60 < (g : ℤ) := by push_cast; omega
    exact_mod_cast hz
  · rw [div_le_iff₀ (by norm_num : (0 : ℚ) < 60)]
    have hz : (g : ℤ) ≤ (((g + 59) / 60 : ℕ) : ℤ) * 60 := by push_cast; omega
    exact_mod_cast hz

end CeilLemmas

/-! ### Claim theorems -/

/-- C1: starting from a fresh empty availability index and load counter, with a
roster whose employee names are unique, after processing any ordered list of
events with `assign_event`, the busy intervals recorded for any single
employee are pairwise compatible: two intervals on the same day never overlap
under the half-open test. -/
theorem busy_intervals_never_overlap (employees : List Employee) (events : List Event)
    (hnames : (employees.map Employee.name).Nodup) (n : String) :
    ((process_events events employees zeroLoad emptySched).2.2 n).Pairwise sameDayDisjoint :=
  process_events_preserves events employees hnames zeroLoad emptySched
    (fun _ => List.Pairwise.nil) n

theorem busy_intervals_never_overlap_witness :
    ((demoRoster.map Employee.name).Nodup) ∧
    ((process_events demoWeek demoRoster zeroLoad emptySched).2.2 "S").Pairwise
      sameDayDisjoint :=
  ⟨by decide, busy_intervals_never_overlap demoRoster demoWeek (by decide) "S"⟩

/-- C2: after `assign_event` runs on an event, the assigned waiter-name list
length plus `missing_waiters` equals the event's required waiter count, the
bartender side satisfies the same identity, both missing counts are
nonnegative, and the assigned lists never exceed the required counts. -/
theorem assignment_counts_balance (ev : Event) (emps : List Employee) (a : String → Nat)
    (s : Sched) :
    ((assign_event ev emps a s).1.waiter_names.length ≤ (assign_event ev emps a s).1.waiters) ∧
    (((assign_event ev emps a s).1.waiter_names.length : Int) +
        (assign_event ev emps a s).1.missing_waiters = (assign_event ev emps a s).1.waiters) ∧
    (0 ≤ (assign_event ev emps a s).1.missing_waiters) ∧
    ((assign_event ev emps a s).1.bartender_names.length ≤
        (assign_event ev emps a s).1.bartenders) ∧
    (((assign_event ev emps a s).1.bartender_names.length : Int) +
        (assign_event ev emps a s).1.missing_bartenders =
          (assign_event ev emps a s).1.bartenders) ∧
    (0 ≤ (assign_event ev emps a s).1.missing_bartenders) := by
  have hw := pick_free_length_le ev s ev.waiters (sortedWaiters ev emps a)
  have hb := pick_free_length_le ev s ev.bartenders (sortedBartenders ev emps a)
  simp only [assign_event, chosenWaiters, chosenBartenders, List.length_map]
  refine ⟨hw, ?_, ?_, hb, ?_, ?_⟩ <;> omega

/-- C3: `calc_staff` returns `(max 3 ⌈g / 20⌉, max 1 ⌈g / 60⌉)` (rational
ceiling), so at least 3 waiters and 1 bartender are always required, and a
guest count of 150 yields exactly 8 waiters and 3 bartenders. -/
theorem calc_staff_formula (g : Nat) (hg : 1 ≤ g) :
    (((calc_staff g).1 : Int) = max 3 ⌈(g : ℚ) / 20⌉) ∧
    (((calc_staff g).2 : Int) = max 1 ⌈(g : ℚ) / 60⌉) ∧
    3 ≤ (calc_staff g).1 ∧ 1 ≤ (calc_staff g).2 ∧ calc_staff 150 = (8, 3) := by
  refine ⟨?_, ?_, ?_, ?_, by decide⟩
  · rw [ceil_div_twenty]
    simp [calc_staff, Nat.cast_max]
  · rw [ceil_div_sixty]
    simp [calc_staff, Nat.cast_max]
  · simp only [calc_staff]
    omega
  · simp only [calc_staff]
    omega

theorem calc_staff_formula_witness :
    (1 ≤ 150) ∧ calc_staff 150 = (8, 3) :=
  ⟨by decide, (calc_staff_formula 150 (by decide)).2.2.2.2⟩

/-- C8: `difficulty_from_guests` maps every guest count into {2,3,4,5} with
the documented thresholds (≤120 ↦ 2, ≤250 ↦ 3, ≤400 ↦ 4, else 5), is
monotone non-decreasing, and takes the claimed values at the six boundary
inputs. -/
theorem difficulty_tier_partition :
    (∀ g : Nat, difficulty_from_guests g ∈ ([2, 3, 4, 5] : List Nat)) ∧
    (∀ g g' : Nat, g ≤ g' → difficulty_from_guests g ≤ difficulty_from_guests g') ∧
    (∀ g : Nat, (difficulty_from_guests g = 2 ↔ g ≤ 120) ∧
      (difficulty_from_guests g = 3 ↔ 121 ≤ g ∧ g ≤ 250) ∧
      (difficulty_from_guests g = 4 ↔ 251 ≤ g ∧ g ≤ 400) ∧
      (difficulty_from_guests g = 5 ↔ 401 ≤ g)) ∧
    difficulty_from_guests 120 = 2 ∧ difficulty_from_guests 121 = 3 ∧
    difficulty_from_guests 250 = 3 ∧ difficulty_from_guests 251 = 4 ∧
    difficulty_from_guests 400 = 4 ∧ difficulty_from_guests 401 = 5 := by
  refine ⟨?_, ?_, ?_, by decide, by decide, by decide, by decide, by decide, by decide⟩
  · intro g
    unfold difficulty_from_guests
    split_ifs <;> simp
  · intro g g' h
    unfold difficulty_from_guests
    split_ifs <;> omega
  · intro g
    unfold difficulty_from_guests
    refine ⟨?_, ?_, ?_, ?_⟩ <;> split_ifs <;> omega

theorem difficulty_tier_partition_witness :
    ((100 : Nat) ≤ 300) ∧ difficulty_from_guests 100 ≤ difficulty_from_guests 300 :=
  ⟨by decide, difficulty_tier_partition.2.1 100 300 (by decide)⟩

/-- C10: for every positive guest count, `calc_staff` requires at least as
many waiters as bartenders. -/
theorem waiters_at_least_bartenders (g : Nat) (hg : 1 ≤ g) :
    (calc_staff g).2 ≤ (calc_staff g).1 := by
  simp only [calc_staff]
  omega

theorem waiters_at_least_bartenders_witness :
    (1 ≤ 150) ∧ (calc_staff 150).2 ≤ (calc_staff 150).1 :=
  ⟨by decide, waiters_at_least_bartenders 150 (by decide)⟩

/-- C4: `assign_event` sorts each role's candidate pool by the composite key
(load ascending, then rank ascending when difficulty ≥ 4 and rank descending
otherwise — the order `empLe`), keeping equal-key candidates in stable input
order (the filter equations), and assigns the first required-count candidates
in that order that pass the availability check; concretely, with two
equal-load waiters of rank 1 and rank 5, a difficulty-5 event picks the
rank-1 waiter first while a difficulty-2 event picks the rank-5 waiter
first. -/
theorem selection_policy :
    (∀ (ev : Event) (emps : List Employee) (a : String → Nat),
      ((sortedWaiters ev emps a).Pairwise
        (fun e1 e2 => empLe ev.difficulty a e1 e2 = true)) ∧
      ((sortedWaiters ev emps a).Perm (waiterPool ev.day emps)) ∧
      (∀ c : Int × Int, (sortedWaiters ev emps a).filter
          (fun e => sortKey ev.difficulty a e == c) =
        (waiterPool ev.day emps).filter (fun e => sortKey ev.difficulty a e == c)) ∧
      ((sortedBartenders ev emps a).Pairwise
        (fun e1 e2 => empLe ev.difficulty a e1 e2 = true)) ∧
      ((sortedBartenders ev emps a).Perm (bartenderPool ev.day emps)) ∧
      (∀ c : Int × Int, (sortedBartenders ev emps a).filter
          (fun e => sortKey ev.difficulty a e == c) =
        (bartenderPool ev.day emps).filter (fun e => sortKey ev.difficulty a e == c))) ∧
    (∀ (ev : Event) (emps : List Employee) (a : String → Nat) (s : Sched),
      ((assign_event ev emps a s).1.waiter_names =
        (((sortedWaiters ev emps a).filter (fun e => can_assign e.name ev s)).take
          ev.waiters).map Employee.name) ∧
      ((assign_event ev emps a s).1.bartender_names =
        (((sortedBartenders ev emps a).filter (fun e => can_assign e.name ev s)).take
          ev.bartenders).map Employee.name)) ∧
    ((build_event "ה" "A" 500 ("19:00".data) ("23:00".data)).map Event.difficulty =
      some 5) ∧
    ((build_event "ה" "A" 500 ("19:00".data) ("23:00".data)).map
      (fun ev => (assign_event ev demoRoster zeroLoad emptySched).1.waiter_names) =
        some ["S", "J"]) ∧
    ((build_event "ה" "A" 100 ("19:00".data) ("23:00".data)).map Event.difficulty =
      some 2) ∧
    ((build_event "ה" "A" 100 ("19:00".data) ("23:00".data)).map
      (fun ev => (assign_event ev demoRoster zeroLoad emptySched).1.waiter_names) =
        some ["J", "S"]) ∧
    waiterS.rank = 1 ∧ waiterJ.rank = 5 ∧ zeroLoad "S" = zeroLoad "J" := by
  refine ⟨?_, ?_, by decide, by decide, by decide, by decide, by decide, by decide, rfl⟩
  · intro ev emps a
    exact ⟨pySort_pairwise _ (keyLe_total _) (keyLe_trans _) _, pySort_perm _ _,
      fun c => pySort_filter_key (sortKey ev.difficulty a) c _,
      pySort_pairwise _ (keyLe_total _) (keyLe_trans _) _, pySort_perm _ _,
      fun c => pySort_filter_key (sortKey ev.difficulty a) c _⟩
  · intro ev emps a s
    constructor <;> simp only [assign_event, chosenWaiters, chosenBartenders, pick_free_eq]

/-- C9: an employee record with a role outside the closed waiter/bartender
set never enters either candidate pool and is never chosen for any event,
and the roster-save step drops any record with an empty (stripped) name or
an out-of-set role, so every retained record has a name and a valid role. -/
theorem invalid_records_excluded :
    (∀ (d : String) (emps : List Employee) (e : Employee),
        e.role ≠ "waiter" → e ∉ waiterPool d emps) ∧
    (∀ (d : String) (emps : List Employee) (e : Employee),
        e.role ≠ "bartender" → e ∉ bartenderPool d emps) ∧
    (∀ (ev : Event) (emps : List Employee) (a : String → Nat) (s : Sched) (e : Employee),
        e.role ≠ "waiter" → e ∉ chosenWaiters ev emps a s) ∧
    (∀ (ev : Event) (emps : List Employee) (a : String → Nat) (s : Sched) (e : Employee),
        e.role ≠ "bartender" → e ∉ chosenBartenders ev emps a s) ∧
    (∀ (emps : List Employee) (e : Employee), e ∈ save_employees_to_db emps →
        e.name ≠ "" ∧ (e.role = "waiter" ∨ e.role = "bartender")) := by
  refine ⟨?_, ?_, ?_, ?_, ?_⟩
  · intro d emps e hr hmem
    exact hr (mem_waiterPool hmem).2
  · intro d emps e hr hmem
    exact hr (mem_bartenderPool hmem).2
  · intro ev emps a s e hr hmem
    exact hr (mem_waiterPool (mem_chosenWaiters hmem).1).2
  · intro ev emps a s e hr hmem
    exact hr (mem_bartenderPool (mem_chosenBartenders hmem).1).2
  · intro emps e he
    unfold save_employees_to_db at he
    have h2 := List.of_mem_filter he
    simpa using h2

theorem invalid_records_excluded_witness :
    (chefX.role ≠ "waiter") ∧ chefX ∉ waiterPool "ה" [waiterS, chefX] ∧
    (chefX.role ≠ "bartender") ∧ chefX ∉ bartenderPool "ה" [waiterS, chefX] ∧
    (waiterS ∈ save_employees_to_db [waiterS, chefX, namelessW]) ∧
    (waiterS.name ≠ "" ∧ (waiterS.role = "waiter" ∨ waiterS.role = "bartender")) :=
  ⟨by decide, invalid_records_excluded.1 "ה" [waiterS, chefX] chefX (by decide),
   by decide, invalid_records_excluded.2.1 "ה" [waiterS, chefX] chefX (by decide),
   by decide, invalid_records_excluded.2.2.2.2 [waiterS, chefX, namelessW] waiterS (by decide)⟩

/-- C5 (amended): for valid inputs the built event has
`endMinute = parsed end + 1440` exactly when the parsed end is at most the
parsed start, and `arrivalMinute = startMinute − 120` with no clamping; start
"23:30" and end "01:00" give `endMinute` 1500 and `arrivalMinute` 1290
(= 1410 − 120). -/
theorem build_event_time_normalization (day hall : String) (guests : Nat) (hg : 1 ≤ guests)
    (st et : List Char) (s e : Int)
    (hs : time_to_minutes st = some s) (he : time_to_minutes et = some e) :
    (∃ ev, build_event day hall guests st et = some ev ∧ ev.start_min = s ∧
      ev.end_min = (if e ≤ s then e + 1440 else e) ∧
      (e ≤ s → ev.end_min = e + 1440) ∧
      ev.arrival_min = s - 120) ∧
    ((build_event "ה" "A" 150 ("23:30".data) ("01:00".data)).map
      (fun ev2 => (ev2.end_min, ev2.arrival_min)) = some (1500, 1290)) := by
  constructor
  · unfold build_event
    rw [hs, he]
    refine ⟨_, rfl, rfl, rfl, ?_, rfl⟩
    intro hle
    show (if e ≤ s then e + 1440 else e) = e + 1440
    rw [if_pos hle]
  · decide

theorem build_event_time_normalization_witness :
    (1 ≤ 150) ∧ time_to_minutes ("23:30".data) = some 1410 ∧
    time_to_minutes ("01:00".data) = some 60 ∧
    ((∃ ev, build_event "ה" "A" 150 ("23:30".data) ("01:00".data) = some ev ∧
        ev.start_min = 1410 ∧
        ev.end_min = (if (60 : Int) ≤ 1410 then 60 + 1440 else 60) ∧
        ((60 : Int) ≤ 1410 → ev.end_min = 60 + 1440) ∧
        ev.arrival_min = 1410 - 120) ∧
      ((build_event "ה" "A" 150 ("23:30".data) ("01:00".data)).map
        (fun ev2 => (ev2.end_min, ev2.arrival_min)) = some (1500, 1290))) :=
  ⟨by decide, by decide, by decide,
   build_event_time_normalization "ה" "A" 150 (by decide) ("23:30".data) ("01:00".data)
     1410 60 (by decide) (by decide)⟩

/-- C5 counterexample: the claim's concrete value `arrivalMinute = 1410` for
start "23:30" is false — the code computes 23:30 − 2h = 1290 minutes. -/
theorem build_event_arrival_counterexample :
    ((build_event "ה" "A" 150 ("23:30".data) ("01:00".data)).map Event.arrival_min ≠
      some 1410) ∧
    ((build_event "ה" "A" 150 ("23:30".data) ("01:00".data)).map Event.arrival_min =
      some 1290) :=
  ⟨by decide, by decide⟩

/-- C6 (amended): `parseClock` succeeds exactly when the input text, after
stripping surrounding whitespace, is exactly 5 characters with a colon at
index 2, both two-character parts numeric, hour in [0,23] and minute in
[0,59]; on any other text it fails. -/
theorem parseClock_success_iff (t : List Char) :
    (parseClock t).isSome = true ↔ goodClockFormat (pyStrip t) := by
  simp only [parseClock, is_time_ok]
  exact parseClockStripped_iff (pyStrip t)

/-- C6 counterexample: `" 19:00"` is six characters long, yet `parseClock`
accepts it (the validator strips whitespace first), refuting the claimed
equivalence on the raw text. -/
theorem parseClock_strip_counterexample :
    parseClock (" 19:00".data) = some 1140 ∧ (parseClock (" 19:00".data)).isSome = true ∧
    ¬ goodClockFormat (" 19:00".data) :=
  ⟨by decide, by decide, by decide⟩

/-- C7: for every integer `m`, `parseClock (minutes_to_time m) = m mod 1440`;
`minutes_to_time` normalizes modulo 1440 before formatting and always emits a
5-character zero-padded `HH:MM` text. -/
theorem format_parse_roundtrip (m : Int) :
    parseClock (minutes_to_time m) = some (m % 1440) ∧
    minutes_to_time m = minutes_to_time (m % 1440) ∧
    (minutes_to_time m).length = 5 := by
  refine ⟨?_, ?_, ?_⟩
  · have h0 : 0 ≤ m % 1440 := Int.emod_nonneg m (by norm_num)
    have h1 : m % 1440 < 1440 := Int.emod_lt_of_pos m (by norm_num)
    have hk : ((m % 1440).toNat : Int) = m % 1440 := Int.toNat_of_nonneg h0
    have hklt : (m % 1440).toNat < 1440 := by omega
    show parseClock (pad2 ((m % 1440).toNat / 60) ++ ':' :: pad2 ((m % 1440).toNat % 60)) =
      some (m % 1440)
    rw [parseClock_fmt _ _ (by omega) (by omega)]
    congr 1
    omega
  · unfold minutes_to_time
    rw [Int.emod_emod_of_dvd m (dvd_refl 1440)]
  · show (pad2 ((m % 1440).toNat / 60) ++ ':' :: pad2 ((m % 1440).toNat % 60)).length = 5
    simp [pad2]

end EventScheduler
